import Mathlib

/-!
Verification of the task-lifecycle and notification logic of the tasks-app
repository (a Supabase/Next.js social task app).

The shallow embedding below translates the client-side handlers that mutate
the persistence layer into pure Lean functions over an explicit application
state (`AppState`).  Conventions used throughout:

* Database rows become Lean structures; nullable columns become `Option`.
* Timestamps are modelled as integer / natural epoch milliseconds (the value
  `Date.getTime()` yields); `new Date(a) > new Date(b)` becomes `a > b`.
* A Supabase `update(...).eq('col', v)` call becomes a `List.map` that
  rewrites every row matching the filter; `insert([row])` appends the row.
* Each handler takes `Bool` parameters injecting the success / failure of the
  individual persistence calls it performs, mirroring the `error` results the
  JavaScript destructures from each `await supabase...` call.
* JavaScript `x || 0` on an optional numeric field becomes `Option.getD x 0`
  (the two agree: `0 || 0` is `0`), and `s₁ || s₂` on strings tests `s₁ ≠ ""`.
-/

namespace TasksApp

/-- A row of the `profiles` table (score and completed_challenges nullable). -/
structure Profile where
  user_id : String
  username : Option String
  avatar_url : Option String
  score : Option Int
  completed_challenges : Option Int
deriving Repr, DecidableEq

/-- A row of the `assignments` table (user-to-user task). `created_at` is in
epoch milliseconds. -/
structure Assignment where
  id : Nat
  created_at : Int
  difficulty : String
  duration : Option String
  proof_url : Option String
  comment : Option String
  task_description : String
  status : String
  assigned_to : String
  assigned_by : String
  points : Option Int
  review_comment : Option String
  is_approved : Option Bool
deriving Repr, DecidableEq

/-- A row of the `GeneratedTasks` table (self- or friend-assigned task). -/
structure GeneratedTask where
  id : Nat
  created_at : Int
  task_description : String
  category : Option String
  duration : Option String
  proof_url : Option String
  comment : Option String
  status : String
  user_id : String
  assigned_by : String
  difficulty : String
  points : Option Int
deriving Repr, DecidableEq

/-- A row of the `notifications` table.  `created_at` is in epoch ms. -/
structure Notification where
  id : Nat
  user_id : String
  sender_id : String
  message : String
  is_read : Bool
  created_at : Nat
  assignment_id : Option Nat
deriving Repr, DecidableEq

/-- The persistent state the handlers read and write: the four Supabase
tables the lifecycle logic touches. -/
structure AppState where
  assignments : List Assignment
  generatedTasks : List GeneratedTask
  profiles : List Profile
  notifications : List Notification
deriving Repr, DecidableEq

/-! ## Difficulty → points mapping

Source: `difficultyPoints` in `src/unnamed/part_008` (and the identical local
copies in `mytasks/page.tsx` and `users/[id]/page.tsx`):
`{ easy: 25, medium: 50, hard: 75 }`, looked up at
`difficultyPoints[d.toLowerCase()] || 0`. -/

/-- `toLowerCase()` (character-wise ASCII lowercasing, which is what it does
on the difficulty and notification strings this app compares). -/
def strToLower (s : String) : String :=
  String.mk (s.data.map Char.toLower)

/-- The record `{ easy: 25, medium: 50, hard: 75 }`; a missing key yields
`none` (JS `undefined`). -/
def difficultyPoints (d : String) : Option Int :=
  if d = "easy" then some 25
  else if d = "medium" then some 50
  else if d = "hard" then some 75
  else none

/-- `difficultyPoints[d.toLowerCase()] || 0`, exactly as every creation site
computes it.  (`|| 0` coincides with `getD 0`: the table never stores `0`.) -/
def pointsForDifficulty (d : String) : Int :=
  (difficultyPoints (strToLower d)).getD 0

/-- The mapping as the specification states it: points determined by literal
membership of the difficulty value in `{easy, medium, hard}`, everything else
`0`.  Written from the spec sentence, for comparison with
`pointsForDifficulty` (which the source implements). -/
def specPointsForDifficulty (d : String) : Int :=
  if d = "easy" then 25
  else if d = "medium" then 50
  else if d = "hard" then 75
  else 0

/-! ## Duration computation

Source: `handleCompleteTask` in `mytasks/page.tsx` (lines 239-245) and in
`mytasks/generated/[id]` (part of `assigned/[id]/page.tsx` file pair, lines
567-572): `Math.floor((now - created) / 60000)` rendered as "<N> minutes".
`Int.fdiv` is floor division, matching `Math.floor` of a real quotient. -/

/-- `const diffMinutes = Math.floor((now.getTime() - created.getTime()) / 60000);
    const computedDuration = diffMinutes + " minutes";` -/
def computedDuration (created now : Int) : String :=
  toString (Int.fdiv (now - created) 60000) ++ " minutes"

/-! ## Task creation operations -/

/-- `handleAssignTask` in `users/[id]/page.tsx` (lines 179-238): insert an
assignment row for `recipientId` with a user-chosen duration string and
difficulty-derived points, then (on success) insert a notification for the
recipient.  `newId`/`now`/`notifId`/`notifTime` stand for the row ids and
`created_at` values the database generates; `insertOk` injects the result of
the assignment insert (on failure nothing else happens). -/
def handleAssignTask (recipientId assignerId taskDescription difficulty
    durationOption customDuration durationUnit comment : String)
    (newId : Nat) (now : Int) (notifId notifTime : Nat)
    (insertOk : Bool) (st : AppState) : AppState :=
  let finalDuration :=
    if durationOption = "Custom" then customDuration ++ " " ++ durationUnit
    else durationOption
  let points := pointsForDifficulty difficulty
  if insertOk then
    { st with
      assignments := st.assignments ++
        [{ id := newId
           created_at := now
           difficulty := difficulty
           duration := some finalDuration
           proof_url := none
           comment := some comment
           task_description := taskDescription
           status := "pending"     -- column default; the insert sets no status
           assigned_to := recipientId
           assigned_by := assignerId
           points := some points
           review_comment := none
           is_approved := none }]
      notifications := st.notifications ++
        [{ id := notifId
           user_id := recipientId
           sender_id := assignerId
           message := "You have been assigned a new challenge worth " ++
             toString points ++ " points!"
           is_read := false
           created_at := notifTime
           assignment_id := none }] }
  else st

/-- `handleAccept` in `src/unnamed/part_008` (lines 419-448): the user accepts
a generated task for themselves; a `GeneratedTasks` row is inserted with
`assigned_by = "application"`, empty duration/comment, pending status, and
difficulty-derived points. -/
def handleAccept (currentUserId description : String) (category : Option String)
    (difficulty : String) (newId : Nat) (now : Int) (insertOk : Bool)
    (st : AppState) : AppState :=
  let points := pointsForDifficulty difficulty
  if insertOk then
    { st with
      generatedTasks := st.generatedTasks ++
        [{ id := newId
           created_at := now
           task_description := description
           category := category
           duration := some ""
           proof_url := none
           comment := some ""
           status := "pending"
           user_id := currentUserId
           assigned_by := "application"
           difficulty := difficulty
           points := some points }] }
  else st

/-- `handleAssignToFriend` in `src/unnamed/part_008` (lines 466-504): like
`handleAccept` but the row belongs to the friend, `assigned_by` is the
current user, and a notification is sent to the friend. -/
def handleAssignToFriend (currentUserId friendId description : String)
    (category : Option String) (difficulty : String) (newId : Nat) (now : Int)
    (notifId notifTime : Nat) (insertOk : Bool) (st : AppState) : AppState :=
  let points := pointsForDifficulty difficulty
  if insertOk then
    { st with
      generatedTasks := st.generatedTasks ++
        [{ id := newId
           created_at := now
           task_description := description
           category := category
           duration := some ""
           proof_url := none
           comment := some ""
           status := "pending"
           user_id := friendId
           assigned_by := currentUserId
           difficulty := difficulty
           points := some points }]
      notifications := st.notifications ++
        [{ id := notifId
           user_id := friendId
           sender_id := currentUserId
           message := "You have been assigned a new generated task: \"" ++
             description ++ "\" by your friend."
           is_read := false
           created_at := notifTime
           assignment_id := none }] }
  else st

/-! ## Review transitions (reviewSubmissions page, `src/unnamed/part_008`) -/

/-- The row rewrite `handleApprove` performs:
`update({status: 'completed', points: (assignment.points || 0) + 25,
review_comment})`.  Note the written points are computed from the reviewer's
cached copy `a`, not from the stored row `r`. -/
def approveUpdate (a : Assignment) (reviewComment : String) (r : Assignment) :
    Assignment :=
  { r with
    status := "completed"
    points := some (a.points.getD 0 + 25)
    review_comment := some reviewComment }

/-- `handleApprove` (part_008 lines 81-106): update the assignment row, then
on success insert an approval notification for the assignee.  `updateOk`
injects the result of the `assignments` update; no other table is touched. -/
def handleApprove (currentUserId : String) (assignment : Assignment)
    (reviewComment : String) (notifId notifTime : Nat) (updateOk : Bool)
    (st : AppState) : AppState :=
  if updateOk then
    { st with
      assignments := st.assignments.map fun r =>
        if r.id = assignment.id then approveUpdate assignment reviewComment r
        else r
      notifications := st.notifications ++
        [{ id := notifId
           user_id := assignment.assigned_to
           sender_id := currentUserId
           message := "Your submission for \"" ++
             assignment.task_description ++ "\" has been approved."
           is_read := false
           created_at := notifTime
           assignment_id := none }] }
  else st

/-- The row rewrite `handleDecline` performs:
`update({status: 'declined', review_comment})`. -/
def declineUpdate (reviewComment : String) (r : Assignment) : Assignment :=
  { r with status := "declined", review_comment := some reviewComment }

/-- `handleDecline` (part_008 lines 108-134): update the assignment row, then
on success insert a decline notification for the assignee. -/
def handleDecline (currentUserId : String) (assignment : Assignment)
    (reviewComment : String) (notifId notifTime : Nat) (updateOk : Bool)
    (st : AppState) : AppState :=
  if updateOk then
    { st with
      assignments := st.assignments.map fun r =>
        if r.id = assignment.id then declineUpdate reviewComment r else r
      notifications := st.notifications ++
        [{ id := notifId
           user_id := assignment.assigned_to
           sender_id := currentUserId
           message := "Your submission for \"" ++
             assignment.task_description ++ "\" was declined."
           is_read := false
           created_at := notifTime
           assignment_id := none }] }
  else st

/-! ## Submission transition (`mytasks/assigned/[id]/page.tsx`) -/

/-- The row rewrite `handleSubmitTask` performs on the assignment:
`update({proof_url, comment, status: 'submitted', points,
review_comment: null, is_approved: false})` where
`points = (task.points || 0) + (proofFile ? 25 : 0)`. -/
def submitUpdate (task : Assignment) (proofUrl finalComment : Option String)
    (extraPoints : Int) (r : Assignment) : Assignment :=
  { r with
    proof_url := proofUrl
    comment := finalComment
    status := "submitted"
    points := some (task.points.getD 0 + extraPoints)
    review_comment := none
    is_approved := some false }

/-- `handleSubmitTask` (lines 140-228): upload the proof if one was chosen
(`proofFile = some url` models a chosen file whose public URL is `url`;
an upload failure aborts before any row is written), award a flat +25 only
when a proof file was provided, compose the comment (prepending the optional
resubmission reason; JS `s₁ || s₂` keeps `s₂` when `s₁` is empty), rewrite
the assignment row, and on success insert a review notification (carrying
`assignment_id`) for the reviewer when `assigned_by` is non-empty. -/
def handleSubmitTask (task : Assignment) (currentUserId : String)
    (proofFile : Option String) (submissionComment resubmissionReason : String)
    (notifId notifTime : Nat) (uploadOk updateOk : Bool) (st : AppState) :
    AppState :=
  if proofFile.isSome ∧ ¬uploadOk then st
  else
    let proofUrl := match proofFile with
      | some url => some url
      | none => task.proof_url
    let extraPoints : Int := if proofFile.isSome then 25 else 0
    let finalComment : Option String :=
      if resubmissionReason ≠ "" then
        some (resubmissionReason ++ ". " ++ submissionComment)
      else if submissionComment ≠ "" then some submissionComment
      else task.comment
    if updateOk then
      let st1 := { st with
        assignments := st.assignments.map fun r =>
          if r.id = task.id then
            submitUpdate task proofUrl finalComment extraPoints r
          else r }
      if task.assigned_by ≠ "" then
        { st1 with
          notifications := st1.notifications ++
            [{ id := notifId
               user_id := task.assigned_by
               sender_id := currentUserId
               message := "Your assigned task \"" ++ task.task_description ++
                 "\" has a new submission awaiting review."
               is_read := false
               created_at := notifTime
               assignment_id := some task.id }] }
      else st1
    else st

/-! ## Completion transition (`mytasks/page.tsx`, lines 217-311)

`handleCompleteTask` operates on either an assignment or a generated task
(the page discriminates by the presence of `assigned_to`). -/

/-- The task selected in the completion modal. -/
inductive SelTask where
  | assigned (a : Assignment)
  | generated (g : GeneratedTask)
deriving Repr, DecidableEq

/-- `created_at` of the selected task. -/
def SelTask.createdAt : SelTask → Int
  | .assigned a => a.created_at
  | .generated g => g.created_at

/-- `proof_url` of the selected task. -/
def SelTask.proofUrl : SelTask → Option String
  | .assigned a => a.proof_url
  | .generated g => g.proof_url

/-- `points` of the selected task. -/
def SelTask.taskPoints : SelTask → Option Int
  | .assigned a => a.points
  | .generated g => g.points

/-- `difficulty` of the selected task. -/
def SelTask.taskDifficulty : SelTask → String
  | .assigned a => a.difficulty
  | .generated g => g.difficulty

/-- What `handleCompleteTask` leaves behind, with the error signals the
code surfaces: `uploadErrorShown` and `taskErrorShown` are the
`setToast('… error …')` calls, `profileErrorLogged` the `console.error`. -/
structure CompleteResult where
  state : AppState
  uploadErrorShown : Bool
  taskErrorShown : Bool
  profileErrorLogged : Bool
deriving Repr, DecidableEq

/-- `handleCompleteTask` in `mytasks/page.tsx` (lines 217-311).

* A failed proof upload returns early: no row is written.
* The duration is computed from `created_at` and `now`, never taken as input.
* `taskPoints` is the task's stored points, falling back to the difficulty
  table when the column is `undefined`.
* The matching task row is rewritten to `completed` (the `assignments`
  branch writes no points; the `GeneratedTasks` branch re-writes them).
* The profile block then runs **unconditionally** — also when the task-row
  update just failed — incrementing the cached profile's score by
  `taskPoints` and `completed_challenges` by 1.

`uploadOk`, `taskOk`, `profOk` inject the results of the three persistence
calls. -/
def handleCompleteTask (sel : SelTask) (profile : Profile)
    (completeComment : String) (proofFile : Option String) (now : Int)
    (uploadOk taskOk profOk : Bool) (st : AppState) : CompleteResult :=
  if proofFile.isSome ∧ ¬uploadOk then
    { state := st, uploadErrorShown := true, taskErrorShown := false
      profileErrorLogged := false }
  else
    let proofUrl := match proofFile with
      | some url => some url
      | none => sel.proofUrl
    let dur := computedDuration sel.createdAt now
    let taskPoints := (sel.taskPoints).getD (pointsForDifficulty sel.taskDifficulty)
    let st1 :=
      if taskOk then
        match sel with
        | .assigned a =>
          { st with assignments := st.assignments.map fun r =>
              if r.id = a.id then
                { r with duration := some dur, comment := some completeComment
                         proof_url := proofUrl, status := "completed" }
              else r }
        | .generated g =>
          { st with generatedTasks := st.generatedTasks.map fun r =>
              if r.id = g.id then
                { r with duration := some dur, comment := some completeComment
                         proof_url := proofUrl, status := "completed"
                         points := some taskPoints }
              else r }
      else st
    let newScore := profile.score.getD 0 + taskPoints
    let newCompleted := profile.completed_challenges.getD 0 + 1
    let st2 :=
      if profOk then
        { st1 with profiles := st1.profiles.map fun p =>
            if p.user_id = profile.user_id then
              { p with score := some newScore
                       completed_challenges := some newCompleted }
            else p }
      else st1
    { state := st2, uploadErrorShown := false, taskErrorShown := ¬taskOk
      profileErrorLogged := ¬profOk }

/-! ## Notifications: mark-as-read (`notifications/page.tsx`, lines 96-105) -/

/-- The per-row effect of the batch update: rows matching
`user_id = userId, is_read = false` get `is_read := true`. -/
def markReadRow (userId : String) (n : Notification) : Notification :=
  if n.user_id = userId ∧ n.is_read = false then { n with is_read := true }
  else n

/-- `markNotificationsAsRead`: `update({is_read: true}).eq('user_id',
userId).eq('is_read', false)` — one batch over the whole table. -/
def markNotificationsAsRead (userId : String) (store : List Notification) :
    List Notification :=
  store.map (markReadRow userId)

/-! ## Notifications: consolidation (`notifications/page.tsx`, lines 41-61)

```js
const consolidateNotifications = (notifs) => {
  const aggregated = {}; const others = [];
  for (const n of notifs) {
    if (n.message.toLowerCase().includes("new message received")) {
      const key = `sender-` + n.sender_id;
      if (!aggregated[key] || new Date(n.created_at) > new Date(aggregated[key].created_at))
        aggregated[key] = n;
    } else others.push(n);
  }
  return [...others, ...Object.values(aggregated)].sort(
    (a, b) => new Date(b.created_at).getTime() - new Date(a.created_at).getTime());
};
```

The JS object `aggregated` is keyed by `"sender-" + sender_id` (injective in
`sender_id`, so we key by `sender_id` directly); assigning to an existing key
keeps its position and `Object.values` returns insertion order, which the
association list below reproduces.  `Array.prototype.sort` with the
`b - a` timestamp comparator is a stable descending sort, reproduced by the
stable insertion sort `sortD`. -/

/-- `pat` occurs as a contiguous sublist of `s` (JS `String.includes`). -/
def containsSub (s pat : List Char) : Bool :=
  match s with
  | [] => pat.isEmpty
  | _ :: t => pat.isPrefixOf s || containsSub t pat

/-- `n.message.toLowerCase().includes("new message received")`. -/
def isMsgNotif (n : Notification) : Bool :=
  containsSub (strToLower n.message).data "new message received".data

/-- `aggregated[key] = n` when the key is absent or `n` is strictly more
recent; an existing key keeps its position in the object. -/
def aggInsert : List (String × Notification) → Notification →
    List (String × Notification)
  | [], n => [(n.sender_id, n)]
  | (k, m) :: rest, n =>
    if k = n.sender_id then
      if m.created_at < n.created_at then (k, n) :: rest else (k, m) :: rest
    else (k, m) :: aggInsert rest n

/-- One iteration of the `for` loop, restricted to the `aggregated` object. -/
def aggStep (agg : List (String × Notification)) (n : Notification) :
    List (String × Notification) :=
  if isMsgNotif n then aggInsert agg n else agg

/-- The `aggregated` object after the loop (insertion-ordered). -/
def aggregate (ns : List Notification) : List (String × Notification) :=
  ns.foldl aggStep []

/-- The `others` array after the loop. -/
def othersOf (ns : List Notification) : List Notification :=
  ns.filter fun n => !isMsgNotif n

/-- Stable insert for a descending-by-`created_at` sort: `n` goes in front of
the first element not strictly more recent than it. -/
def insertD (n : Notification) : List Notification → List Notification
  | [] => [n]
  | m :: l =>
    if n.created_at < m.created_at then m :: insertD n l else n :: m :: l

/-- Stable insertion sort, descending by `created_at` — the observable
behaviour of `.sort((a, b) => b.created_at - a.created_at)` (ECMAScript
mandates a stable sort). -/
def sortD : List Notification → List Notification
  | [] => []
  | n :: l => insertD n (sortD l)

/-- `consolidateNotifications` (lines 41-61). -/
def consolidateNotifications (ns : List Notification) : List Notification :=
  sortD (othersOf ns ++ (aggregate ns).map Prod.snd)

/-- First value stored under key `k` in the `aggregated` object. -/
def findAgg : List (String × Notification) → String → Option Notification
  | [], _ => none
  | (k, m) :: rest, s => if k = s then some m else findAgg rest s

/-- Sorted newest-first by `created_at`. -/
def SortedD (l : List Notification) : Prop :=
  l.Pairwise fun a b => b.created_at ≤ a.created_at

/-! ## Concrete fixtures, used by the closed witness / counterexample
theorems below -/

/-- A submitted hard assignment from alice to bob worth 100 points (75 base
+ 25 proof bonus). -/
def sampleAssignment : Assignment :=
  { id := 1
    created_at := 0
    difficulty := "hard"
    duration := some "1 Day"
    proof_url := some "u"
    comment := some ""
    task_description := "t"
    status := "submitted"
    assigned_to := "bob"
    assigned_by := "alice"
    points := some 100
    review_comment := none
    is_approved := some false }

/-- Bob's profile row: score 10, two completed challenges. -/
def sampleProfile : Profile :=
  { user_id := "bob"
    username := some "bob"
    avatar_url := none
    score := some 10
    completed_challenges := some 2 }

/-- A pending medium generated task owned by bob, created at t = 0. -/
def sampleGenTask : GeneratedTask :=
  { id := 4
    created_at := 0
    task_description := "g"
    category := none
    duration := some ""
    proof_url := none
    comment := some ""
    status := "pending"
    user_id := "bob"
    assigned_by := "application"
    difficulty := "medium"
    points := some 50 }

/-- A store holding exactly the three rows above. -/
def sampleState : AppState :=
  { assignments := [sampleAssignment]
    generatedTasks := [sampleGenTask]
    profiles := [sampleProfile]
    notifications := [] }

/-- A "new message received" notification from sender s that carries an
assignment id (the consolidation code never looks at the id). -/
def sampleMsgNotif1 : Notification :=
  { id := 1
    user_id := "u"
    sender_id := "s"
    message := "new message received from ann"
    is_read := false
    created_at := 100
    assignment_id := some 5 }

/-- A later notification with the same sender, message pattern and
assignment id. -/
def sampleMsgNotif2 : Notification :=
  { id := 2
    user_id := "u"
    sender_id := "s"
    message := "new message received from ann"
    is_read := false
    created_at := 200
    assignment_id := some 5 }

/-- All four tables empty. -/
def emptyState : AppState :=
  { assignments := [], generatedTasks := [], profiles := [],
    notifications := [] }

/-! # Theorems -/

/-- A filtered `update` rewrites a stored row the filter matches: generic
form of membership in `l.map (fun x => if q x then f x else x)`. -/
theorem mem_map_update {α : Type} (l : List α) (q : α → Prop) [DecidablePred q]
    (f : α → α) {r : α} (hr : r ∈ l) :
    (if q r then f r else r) ∈ l.map fun x => if q x then f x else x :=
  List.mem_map_of_mem _ hr

/-! ## C1 — approving a submitted assignment -/

/-- C1 (counterexample). Approving the submitted hard assignment (cached
points 100) succeeds: the row becomes `completed` with 125 points and the
assignee is notified — yet the assignee's profile row is byte-for-byte
unchanged (score still 10, completed_challenges still 2), refuting the
claim's "increases the assignee's profile score by the assignment's final
points total, and increases the assignee's completed_challenges by exactly
1". -/
theorem handleApprove_profile_untouched_cex :
    (handleApprove "alice" sampleAssignment "well done" 7 50 true
        sampleState).assignments.map (fun r => (r.status, r.points)) =
      [("completed", some 125)]
    ∧ (handleApprove "alice" sampleAssignment "well done" 7 50 true
        sampleState).profiles = [sampleProfile]
    ∧ sampleProfile.score = some 10
    ∧ sampleProfile.completed_challenges = some 2 := by
  refine ⟨rfl, rfl, rfl, rfl⟩

/-- C1 (amended). Approving a submitted assignment sets its status to
`completed`, sets its points to the reviewer's cached points plus exactly 25,
sets `review_comment` to the reviewer's note, appends a notification for the
assignee, and leaves every other assignment row alone — but it performs no
profile mutation whatsoever: the `profiles` table is returned unchanged, so
the assignee's score and completed_challenges stay as they were (and the
failure of the row update changes nothing at all). -/
theorem handleApprove_spec (st : AppState) (uid : String) (a : Assignment)
    (note : String) (nid nt : Nat) :
    (handleApprove uid a note nid nt true st).profiles = st.profiles
    ∧ (handleApprove uid a note nid nt true st).generatedTasks =
        st.generatedTasks
    ∧ (∀ r ∈ st.assignments, r.id = a.id →
        approveUpdate a note r ∈
          (handleApprove uid a note nid nt true st).assignments
        ∧ (approveUpdate a note r).status = "completed"
        ∧ (approveUpdate a note r).points = some (a.points.getD 0 + 25)
        ∧ (approveUpdate a note r).review_comment = some note)
    ∧ (∀ r ∈ st.assignments, r.id ≠ a.id →
        r ∈ (handleApprove uid a note nid nt true st).assignments)
    ∧ (handleApprove uid a note nid nt true st).notifications =
        st.notifications ++
          [{ id := nid, user_id := a.assigned_to, sender_id := uid,
             message := "Your submission for \"" ++ a.task_description ++
               "\" has been approved.",
             is_read := false, created_at := nt, assignment_id := none }]
    ∧ handleApprove uid a note nid nt false st = st := by
  refine ⟨rfl, rfl, ?_, ?_, rfl, rfl⟩
  · intro r hr h
    refine ⟨?_, rfl, rfl, rfl⟩
    have := mem_map_update st.assignments (fun x => x.id = a.id)
      (approveUpdate a note) hr
    simpa [handleApprove, if_pos h] using this
  · intro r hr h
    have := mem_map_update st.assignments (fun x => x.id = a.id)
      (approveUpdate a note) hr
    simpa [handleApprove, if_neg h] using this

/-! ## C7 — declining a submitted assignment -/

/-- C7 (confirmed). Declining rewrites the matching assignment row to status
`declined` with the reviewer's note as `review_comment` and changes no other
field of the row — in particular its points are exactly preserved — appends
a notification for the assignee, and never touches the `profiles` (or
`GeneratedTasks`) table. -/
theorem handleDecline_spec (st : AppState) (uid : String) (a : Assignment)
    (note : String) (nid nt : Nat) :
    (handleDecline uid a note nid nt true st).profiles = st.profiles
    ∧ (handleDecline uid a note nid nt true st).generatedTasks =
        st.generatedTasks
    ∧ (∀ r ∈ st.assignments, r.id = a.id →
        declineUpdate note r ∈
          (handleDecline uid a note nid nt true st).assignments
        ∧ (declineUpdate note r).status = "declined"
        ∧ (declineUpdate note r).review_comment = some note
        ∧ (declineUpdate note r).points = r.points
        ∧ (declineUpdate note r).id = r.id
        ∧ (declineUpdate note r).created_at = r.created_at
        ∧ (declineUpdate note r).difficulty = r.difficulty
        ∧ (declineUpdate note r).duration = r.duration
        ∧ (declineUpdate note r).proof_url = r.proof_url
        ∧ (declineUpdate note r).comment = r.comment
        ∧ (declineUpdate note r).task_description = r.task_description
        ∧ (declineUpdate note r).assigned_to = r.assigned_to
        ∧ (declineUpdate note r).assigned_by = r.assigned_by
        ∧ (declineUpdate note r).is_approved = r.is_approved)
    ∧ (∀ r ∈ st.assignments, r.id ≠ a.id →
        r ∈ (handleDecline uid a note nid nt true st).assignments)
    ∧ handleDecline uid a note nid nt false st = st := by
  refine ⟨rfl, rfl, ?_, ?_, rfl⟩
  · intro r hr h
    refine ⟨?_, rfl, rfl, rfl, rfl, rfl, rfl, rfl, rfl, rfl, rfl, rfl, rfl, rfl⟩
    have := mem_map_update st.assignments (fun x => x.id = a.id)
      (declineUpdate note) hr
    simpa [handleDecline, if_pos h] using this
  · intro r hr h
    have := mem_map_update st.assignments (fun x => x.id = a.id)
      (declineUpdate note) hr
    simpa [handleDecline, if_neg h] using this

/-! ## C2 — failure of the task-row update during completion -/

/-- C2 (counterexample). Completing bob's submitted assignment (100 points)
with the `assignments` update failing: the error is surfaced and the task
store is untouched, yet the transition is **not** aborted — bob's profile is
still rewritten, score 10 → 110 and completed_challenges 2 → 3, refuting
"the whole transition is aborted and all stored state (including the owner's
profile score and completed_challenges) is left untouched". -/
theorem handleCompleteTask_failure_cex :
    (handleCompleteTask (.assigned sampleAssignment) sampleProfile "done"
        none 600000 true false true sampleState).taskErrorShown = true
    ∧ (handleCompleteTask (.assigned sampleAssignment) sampleProfile "done"
        none 600000 true false true sampleState).state.assignments =
      sampleState.assignments
    ∧ (handleCompleteTask (.assigned sampleAssignment) sampleProfile "done"
        none 600000 true false true sampleState).state.profiles.map
        (fun p => (p.score, p.completed_challenges)) = [(some 110, some 3)]
    ∧ sampleProfile.score = some 10
    ∧ sampleProfile.completed_challenges = some 2 := by
  refine ⟨rfl, rfl, rfl, rfl, rfl⟩

/-- C2 (amended). When the task-row update fails during
`handleCompleteTask` (proof upload absent or successful), the task stores
are left untouched and the failure is surfaced to the caller (there is no
retry: the handler performs each write once) — but the transition is *not*
aborted: the profile block still runs, and when its own write succeeds it
rewrites the owner's row to score `cached score + taskPoints` and
`completed_challenges + 1`.  Only a proof-upload failure aborts the whole
transition with all stored state untouched. -/
theorem handleCompleteTask_failure_spec (sel : SelTask) (profile : Profile)
    (cc url : String) (now : Int) (profOk taskOk : Bool) (st : AppState) :
    (handleCompleteTask sel profile cc none now true false profOk
        st).state.assignments = st.assignments
    ∧ (handleCompleteTask sel profile cc none now true false profOk
        st).state.generatedTasks = st.generatedTasks
    ∧ (handleCompleteTask sel profile cc none now true false profOk
        st).taskErrorShown = true
    ∧ (∀ p ∈ st.profiles, p.user_id = profile.user_id →
        { p with
          score := some (profile.score.getD 0 +
            (sel.taskPoints).getD (pointsForDifficulty sel.taskDifficulty))
          completed_challenges :=
            some (profile.completed_challenges.getD 0 + 1) } ∈
          (handleCompleteTask sel profile cc none now true false true
            st).state.profiles)
    ∧ handleCompleteTask sel profile cc (some url) now false taskOk profOk
        st = { state := st, uploadErrorShown := true, taskErrorShown := false,
               profileErrorLogged := false } := by
  refine ⟨?_, ?_, ?_, ?_, ?_⟩
  · cases sel <;> cases profOk <;> rfl
  · cases sel <;> cases profOk <;> rfl
  · cases sel <;> cases profOk <;> rfl
  · intro p hp h
    have := mem_map_update st.profiles
      (fun x => x.user_id = profile.user_id)
      (fun x => { x with
        score := some (profile.score.getD 0 +
          (sel.taskPoints).getD (pointsForDifficulty sel.taskDifficulty))
        completed_challenges :=
          some (profile.completed_challenges.getD 0 + 1) }) hp
    rw [if_pos h] at this
    cases sel <;> simpa [handleCompleteTask] using this
  · simp [handleCompleteTask]

/-! ## C3 — difficulty → points at creation -/

/-- C3 (counterexample). `"EASY"` is outside `{easy, medium, hard}`, so the
claim requires points 0, but the code lowercases before the lookup: the
points function yields 25 and assigning a challenge with difficulty `"EASY"`
creates a 25-point assignment. -/
theorem pointsForDifficulty_case_cex :
    pointsForDifficulty "EASY" = 25
    ∧ specPointsForDifficulty "EASY" = 0
    ∧ (handleAssignTask "bob" "alice" "t" "EASY" "1 Day" "" "Minutes" "c"
        9 0 10 11 true emptyState).assignments.map (fun r => r.points) =
      [some 25] := by
  refine ⟨rfl, rfl, rfl⟩

/-- C3 (amended). Every creation path — assigning an Assignment, accepting a
GeneratedTask for oneself, assigning a GeneratedTask to a friend — computes
the new row's points as the fixed table `{easy: 25, medium: 50, hard: 75}`
applied to the *lowercased* difficulty, with every value whose lowercasing
is outside the table yielding 0. -/
theorem taskCreation_points_spec (d rid aid td dop cd du cm uid desc fid :
    String) (cat : Option String) (nid : Nat) (now : Int) (n1 n2 : Nat)
    (st : AppState) :
    pointsForDifficulty d = specPointsForDifficulty (strToLower d)
    ∧ (∃ r, (handleAssignTask rid aid td d dop cd du cm nid now n1 n2 true
          st).assignments = st.assignments ++ [r]
        ∧ r.points = some (pointsForDifficulty d))
    ∧ (∃ g, (handleAccept uid desc cat d nid now true st).generatedTasks =
          st.generatedTasks ++ [g]
        ∧ g.points = some (pointsForDifficulty d))
    ∧ (∃ g, (handleAssignToFriend uid fid desc cat d nid now n1 n2 true
          st).generatedTasks = st.generatedTasks ++ [g]
        ∧ g.points = some (pointsForDifficulty d)) := by
  refine ⟨?_, ⟨_, rfl, rfl⟩, ⟨_, rfl, rfl⟩, ⟨_, rfl, rfl⟩⟩
  unfold pointsForDifficulty difficultyPoints specPointsForDifficulty
  split_ifs <;> rfl

/-! ## C4 — submitting an assignment -/

/-- C4 (confirmed). Submitting with a proof file rewrites the matching row
to status `submitted`, clears `review_comment`, stores the uploaded proof
URL and sets points to exactly the pre-submission points plus 25 (a strict
increase); submitting without a proof file performs the same rewrite but
leaves the points value unchanged. -/
theorem handleSubmitTask_spec (task : Assignment) (uid url sc rr : String)
    (nid nt : Nat) (st : AppState) :
    (∀ r ∈ st.assignments, r.id = task.id →
      ∃ r', r' ∈ (handleSubmitTask task uid (some url) sc rr nid nt true
            true st).assignments
        ∧ r'.status = "submitted"
        ∧ r'.review_comment = none
        ∧ r'.proof_url = some url
        ∧ r'.points = some (task.points.getD 0 + 25)
        ∧ task.points.getD 0 < r'.points.getD 0)
    ∧ (∀ r ∈ st.assignments, r.id = task.id →
      ∃ r', r' ∈ (handleSubmitTask task uid none sc rr nid nt true
            true st).assignments
        ∧ r'.status = "submitted"
        ∧ r'.review_comment = none
        ∧ r'.points = some (task.points.getD 0)
        ∧ (∀ p, task.points = some p → r'.points = some p)) := by
  constructor
  · intro r hr h
    refine ⟨submitUpdate task (some url)
      (if rr ≠ "" then some (rr ++ ". " ++ sc)
       else if sc ≠ "" then some sc else task.comment) 25 r,
      ?_, rfl, rfl, rfl, rfl, by simp [submitUpdate]⟩
    have := mem_map_update st.assignments (fun x => x.id = task.id)
      (submitUpdate task (some url)
        (if rr ≠ "" then some (rr ++ ". " ++ sc)
         else if sc ≠ "" then some sc else task.comment) 25) hr
    rw [if_pos h] at this
    by_cases hb : task.assigned_by = "" <;>
      simp [handleSubmitTask, hb] at this ⊢ <;> simpa using this
  · intro r hr h
    refine ⟨submitUpdate task task.proof_url
      (if rr ≠ "" then some (rr ++ ". " ++ sc)
       else if sc ≠ "" then some sc else task.comment) 0 r,
      ?_, rfl, rfl, by simp [submitUpdate], ?_⟩
    · have := mem_map_update st.assignments (fun x => x.id = task.id)
        (submitUpdate task task.proof_url
          (if rr ≠ "" then some (rr ++ ". " ++ sc)
           else if sc ≠ "" then some sc else task.comment) 0) hr
      rw [if_pos h] at this
      by_cases hb : task.assigned_by = "" <;>
        simp [handleSubmitTask, hb] at this ⊢ <;> simpa using this
    · intro p hp
      simp [submitUpdate, hp]

/-! ## C5 — duration recorded at completion -/

/-- C5 (helper). For a non-negative millisecond difference, floor division
by 60000 over ℤ agrees with natural-number division. -/
theorem fdiv_toNat_of_le (created now : Int) (h : created ≤ now) :
    Int.fdiv (now - created) 60000 = ((now - created).toNat / 60000 : Nat) := by
  have h0 : (0 : Int) ≤ now - created := sub_nonneg.mpr h
  rw [Int.fdiv_eq_tdiv h0 (by norm_num)]
  conv_lhs => rw [← Int.toNat_of_nonneg h0]
  exact (Int.ofNat_tdiv _ _).symm

/-- C5 (confirmed). For any completion at `now ≥ created_at`, the duration
the completion transition records on the task row is exactly
`floor((now − created_at) / 60000)` whole minutes rendered as
`"<N> minutes"`.  It is computed from the row's `created_at` and the clock
only — `handleCompleteTask` takes no duration input. -/
theorem completion_duration_spec (g : GeneratedTask) (profile : Profile)
    (cc : String) (now : Int) (profOk : Bool) (st : AppState)
    (h : g.created_at ≤ now) :
    computedDuration g.created_at now =
      toString ((now - g.created_at).toNat / 60000) ++ " minutes"
    ∧ ∀ r ∈ st.generatedTasks, r.id = g.id →
        ∃ r', r' ∈ (handleCompleteTask (.generated g) profile cc none now
            true true profOk st).state.generatedTasks
          ∧ r'.duration =
              some (toString ((now - g.created_at).toNat / 60000) ++
                " minutes")
          ∧ r'.status = "completed" := by
  have hdur : computedDuration g.created_at now =
      toString ((now - g.created_at).toNat / 60000) ++ " minutes" := by
    unfold computedDuration
    rw [fdiv_toNat_of_le _ _ h]
    rfl
  refine ⟨hdur, ?_⟩
  intro r hr hid
  refine ⟨{ r with
      duration := some (computedDuration g.created_at now)
      comment := some cc
      proof_url := g.proof_url
      status := "completed"
      points := some ((g.points).getD (pointsForDifficulty g.difficulty)) },
    ?_, by simp [hdur], rfl⟩
  have := mem_map_update st.generatedTasks (fun x => x.id = g.id)
    (fun x => { x with
      duration := some (computedDuration g.created_at now)
      comment := some cc
      proof_url := g.proof_url
      status := "completed"
      points := some ((g.points).getD (pointsForDifficulty g.difficulty)) })
    hr
  rw [if_pos hid] at this
  cases profOk <;> simpa [handleCompleteTask, SelTask.createdAt,
    SelTask.proofUrl, SelTask.taskPoints, SelTask.taskDifficulty] using this

/-- C5 (witness). Completing the sample medium task 10 minutes (600000 ms)
after its creation records the duration "10 minutes" on the stored row. -/
theorem completion_duration_witness :
    ∃ r', r' ∈ (handleCompleteTask (.generated sampleGenTask) sampleProfile
        "done" none 600000 true true true
        sampleState).state.generatedTasks
      ∧ r'.duration = some "10 minutes" ∧ r'.status = "completed" := by
  obtain ⟨r', h1, h2, h3⟩ :=
    (completion_duration_spec sampleGenTask sampleProfile "done" 600000 true
      sampleState (by decide)).2 sampleGenTask (by decide) rfl
  exact ⟨r', h1, by rw [h2]; rfl, h3⟩

/-! ## C8 — duration at assignment creation -/

/-- C8 (counterexample). Creating an assignment with the default "1 Day"
duration option stores `duration = some "1 Day"` on the new row — the field
is set at creation (to an assigner-chosen value), refuting "the duration
field is not set at creation". -/
theorem assignment_creation_duration_cex :
    (handleAssignTask "bob" "alice" "t" "easy" "1 Day" "" "Minutes" "c"
        9 0 10 11 true emptyState).assignments.map (fun r => r.duration) =
      [some "1 Day"]
    ∧ some "1 Day" ≠ (none : Option String) := by
  exact ⟨rfl, by decide⟩

/-- C8 (amended). Assignment creation *does* set the duration field: the new
row stores the assigner-chosen duration string — the selected option, or
`"<value> <unit>"` when the option is `Custom` — rather than leaving it
unset; the computed elapsed-minutes duration only replaces it on a later
completion transition. -/
theorem handleAssignTask_duration_spec (rid aid td d dop cd du cm : String)
    (nid : Nat) (now : Int) (n1 n2 : Nat) (st : AppState) :
    ∃ r, (handleAssignTask rid aid td d dop cd du cm nid now n1 n2 true
        st).assignments = st.assignments ++ [r]
      ∧ r.duration = some (if dop = "Custom" then cd ++ " " ++ du else dop)
      ∧ r.status = "pending" := by
  exact ⟨_, rfl, rfl, rfl⟩

/-! ## C9 — marking notifications as read -/

/-- C9 (confirmed). Marking a recipient's notifications as read is one batch
rewrite of the store: afterwards every one of the recipient's notifications
is read, other users' notifications are untouched, no row is added or
dropped, and running it a second time is exactly the identity on the result
(idempotence; the embedding is total, mirroring that the handler at worst
logs an error). -/
theorem markNotificationsAsRead_spec (u : String) (s : List Notification) :
    markNotificationsAsRead u (markNotificationsAsRead u s) =
      markNotificationsAsRead u s
    ∧ (∀ n ∈ markNotificationsAsRead u s, n.user_id = u → n.is_read = true)
    ∧ (∀ n ∈ s, n.user_id ≠ u → n ∈ markNotificationsAsRead u s)
    ∧ (markNotificationsAsRead u s).length = s.length := by
  have hrow : ∀ n, markReadRow u (markReadRow u n) = markReadRow u n := by
    intro n
    by_cases hc : n.user_id = u ∧ n.is_read = false
    · unfold markReadRow
      rw [if_pos hc, if_neg (by simp)]
    · unfold markReadRow
      rw [if_neg hc, if_neg hc]
  refine ⟨?_, ?_, ?_, by simp [markNotificationsAsRead]⟩
  · unfold markNotificationsAsRead
    rw [List.map_map]
    exact List.map_congr_left fun n _ => hrow n
  · intro n hn hu
    obtain ⟨m, hm, he⟩ := List.mem_map.mp hn
    by_cases hc : m.user_id = u ∧ m.is_read = false
    · unfold markReadRow at he
      rw [if_pos hc] at he
      rw [← he]
    · unfold markReadRow at he
      rw [if_neg hc] at he
      subst he
      rcases Bool.eq_false_or_eq_true m.is_read with hb | hb
      · exact hb
      · exact absurd ⟨hu, hb⟩ hc
  · intro n hn hu
    have := List.mem_map_of_mem (markReadRow u) hn
    have he : markReadRow u n = n := by
      unfold markReadRow
      rw [if_neg (fun hc => hu hc.1)]
    rwa [he] at this

/-! ## Stable-sort lemmas for the notification consolidation -/

theorem insertD_nil (n : Notification) : insertD n [] = [n] := rfl

theorem insertD_cons (n m : Notification) (t : List Notification) :
    insertD n (m :: t) =
      if n.created_at < m.created_at then m :: insertD n t
      else n :: m :: t := rfl

theorem sortD_cons (n : Notification) (l : List Notification) :
    sortD (n :: l) = insertD n (sortD l) := rfl

theorem sortedD_cons {m : Notification} {t : List Notification} :
    SortedD (m :: t) ↔
      (∀ y ∈ t, y.created_at ≤ m.created_at) ∧ SortedD t :=
  List.pairwise_cons

theorem insertD_perm (n : Notification) (l : List Notification) :
    List.Perm (insertD n l) (n :: l) := by
  induction l with
  | nil => exact List.Perm.refl _
  | cons m t ih =>
    rw [insertD_cons]
    by_cases h : n.created_at < m.created_at
    · rw [if_pos h]
      exact (List.Perm.cons m ih).trans (List.Perm.swap n m t)
    · rw [if_neg h]

theorem sortD_perm (l : List Notification) : List.Perm (sortD l) l := by
  induction l with
  | nil => exact List.Perm.refl _
  | cons n t ih =>
    exact (insertD_perm n (sortD t)).trans (List.Perm.cons n ih)

theorem mem_insertD {x n : Notification} {l : List Notification} :
    x ∈ insertD n l ↔ x = n ∨ x ∈ l := by
  rw [(insertD_perm n l).mem_iff, List.mem_cons]

theorem sortedD_insertD (n : Notification) {l : List Notification}
    (h : SortedD l) : SortedD (insertD n l) := by
  induction l with
  | nil =>
    exact List.pairwise_singleton _ _
  | cons m t ih =>
    obtain ⟨hm, ht⟩ := sortedD_cons.mp h
    rw [insertD_cons]
    by_cases hlt : n.created_at < m.created_at
    · rw [if_pos hlt]
      refine sortedD_cons.mpr ⟨?_, ih ht⟩
      intro y hy
      rcases mem_insertD.mp hy with rfl | hy
      · exact le_of_lt hlt
      · exact hm y hy
    · rw [if_neg hlt]
      refine sortedD_cons.mpr ⟨?_, sortedD_cons.mpr ⟨hm, ht⟩⟩
      intro y hy
      rcases List.mem_cons.mp hy with rfl | hy
      · exact le_of_not_lt hlt
      · exact le_trans (hm y hy) (le_of_not_lt hlt)

theorem sortD_sorted (l : List Notification) : SortedD (sortD l) := by
  induction l with
  | nil => exact List.Pairwise.nil
  | cons n t ih => exact sortedD_insertD n ih

theorem insertD_comm {x y : Notification}
    (h : x.created_at < y.created_at) (M : List Notification) :
    insertD y (insertD x M) = insertD x (insertD y M) := by
  induction M with
  | nil =>
    rw [insertD_nil, insertD_nil, insertD_cons, insertD_cons,
      if_neg (by omega), if_pos h, insertD_nil]
  | cons z M0 ih =>
    have e1 : insertD x (z :: M0) =
        if x.created_at < z.created_at then z :: insertD x M0
        else x :: z :: M0 := insertD_cons x z M0
    have e2 : insertD y (z :: M0) =
        if y.created_at < z.created_at then z :: insertD y M0
        else y :: z :: M0 := insertD_cons y z M0
    by_cases hx : x.created_at < z.created_at
    · by_cases hy : y.created_at < z.created_at
      · rw [if_pos hx] at e1
        rw [if_pos hy] at e2
        rw [e1, e2, insertD_cons, if_pos hy, insertD_cons, if_pos hx, ih]
      · rw [if_pos hx] at e1
        rw [if_neg hy] at e2
        rw [e1, e2, insertD_cons, if_neg hy, insertD_cons, if_pos h, e1]
    · by_cases hy : y.created_at < z.created_at
      · omega
      · rw [if_neg hx] at e1
        rw [if_neg hy] at e2
        rw [e1, e2, insertD_cons,
          if_neg (show ¬y.created_at < x.created_at by omega),
          insertD_cons, if_pos h, insertD_cons, if_neg hx]

theorem foldr_insertD (x : Notification) (l m : List Notification) :
    List.foldr insertD m (insertD x l) =
      insertD x (List.foldr insertD m l) := by
  induction l with
  | nil => rfl
  | cons y t ih =>
    by_cases hx : x.created_at < y.created_at
    · rw [insertD_cons, if_pos hx, List.foldr_cons, ih, List.foldr_cons,
        insertD_comm hx]
    · rw [insertD_cons, if_neg hx, List.foldr_cons, List.foldr_cons]

theorem sortD_eq_foldr (l : List Notification) :
    sortD l = List.foldr insertD [] l := by
  induction l with
  | nil => rfl
  | cons n t ih =>
    show insertD n (sortD t) = insertD n (List.foldr insertD [] t)
    rw [ih]

theorem foldr_sortD (l m : List Notification) :
    List.foldr insertD m (sortD l) = List.foldr insertD m l := by
  induction l with
  | nil => rfl
  | cons x t ih =>
    show List.foldr insertD m (insertD x (sortD t)) = _
    rw [foldr_insertD, ih]
    rfl

theorem sortD_append (l r : List Notification) :
    sortD (l ++ r) = List.foldr insertD (sortD r) l := by
  induction l with
  | nil => rfl
  | cons x t ih =>
    show insertD x (sortD (t ++ r)) = _
    rw [ih]
    rfl

theorem sortD_idem (l : List Notification) : sortD (sortD l) = sortD l := by
  rw [sortD_eq_foldr (sortD l), foldr_sortD, ← sortD_eq_foldr]

theorem sortD_sortD_append (A B : List Notification) :
    sortD (sortD A ++ B) = sortD (A ++ B) := by
  rw [sortD_append, sortD_append, foldr_sortD]

theorem sortD_append_sortD (A B : List Notification) :
    sortD (A ++ sortD B) = sortD (A ++ B) := by
  rw [sortD_append, sortD_idem, ← sortD_append]

theorem insertD_eq_cons {n : Notification} {l : List Notification}
    (h : ∀ y ∈ l, y.created_at ≤ n.created_at) : insertD n l = n :: l := by
  cases l with
  | nil => rfl
  | cons m t =>
    rw [insertD_cons, if_neg (not_lt.mpr (h m (List.mem_cons_self m t)))]

theorem filter_insertD (p : Notification → Bool) (n : Notification)
    {l : List Notification} (h : SortedD l) :
    (insertD n l).filter p =
      if p n then insertD n (l.filter p) else l.filter p := by
  induction l with
  | nil =>
    cases hpn : p n <;> simp [insertD_nil, hpn]
  | cons m t ih =>
    obtain ⟨hm, ht⟩ := sortedD_cons.mp h
    by_cases hlt : n.created_at < m.created_at
    · rw [insertD_cons, if_pos hlt]
      cases hpn : p n
      · cases hpm : p m <;> simp [List.filter_cons, hpn, hpm, ih ht]
      · cases hpm : p m
        · simp [List.filter_cons, hpn, hpm, ih ht]
        · simp [List.filter_cons, hpn, hpm, ih ht]
          rw [insertD_cons, if_pos hlt]
    · rw [insertD_cons, if_neg hlt]
      cases hpn : p n
      · simp [List.filter_cons, hpn]
      · have hall : ∀ y ∈ List.filter p (m :: t),
            y.created_at ≤ n.created_at := by
          intro y hy
          rcases List.mem_cons.mp (List.mem_of_mem_filter hy) with rfl | hy2
          · exact le_of_not_lt hlt
          · exact le_trans (hm y hy2) (le_of_not_lt hlt)
        rw [insertD_eq_cons hall]
        simp [List.filter_cons, hpn]

theorem filter_sortD (p : Notification → Bool) (l : List Notification) :
    (sortD l).filter p = sortD (l.filter p) := by
  induction l with
  | nil => rfl
  | cons n t ih =>
    rw [sortD_cons, filter_insertD p n (sortD_sorted t), ih]
    cases hpn : p n
    · simp [List.filter_cons, hpn]
    · simp only [List.filter_cons, hpn, if_true]
      rw [sortD_cons]

/-! ## Aggregation-object lemmas -/

theorem aggInsert_nil (n : Notification) :
    aggInsert [] n = [(n.sender_id, n)] := rfl

theorem aggInsert_cons (k : String) (m : Notification)
    (rest : List (String × Notification)) (n : Notification) :
    aggInsert ((k, m) :: rest) n =
      if k = n.sender_id then
        if m.created_at < n.created_at then (k, n) :: rest
        else (k, m) :: rest
      else (k, m) :: aggInsert rest n := rfl

theorem findAgg_cons (k : String) (m : Notification)
    (rest : List (String × Notification)) (s : String) :
    findAgg ((k, m) :: rest) s = if k = s then some m else findAgg rest s :=
  rfl

theorem aggStep_eq (agg : List (String × Notification)) (n : Notification) :
    aggStep agg n = if isMsgNotif n then aggInsert agg n else agg := rfl

theorem mem_aggInsert {kv : String × Notification}
    {agg : List (String × Notification)} {n : Notification}
    (h : kv ∈ aggInsert agg n) : kv ∈ agg ∨ kv = (n.sender_id, n) := by
  induction agg with
  | nil =>
    rw [aggInsert_nil] at h
    right
    simpa using h
  | cons hd rest ih =>
    obtain ⟨k, m⟩ := hd
    rw [aggInsert_cons] at h
    by_cases hk : k = n.sender_id
    · rw [if_pos hk] at h
      by_cases hlt : m.created_at < n.created_at
      · rw [if_pos hlt] at h
        rcases List.mem_cons.mp h with rfl | h2
        · right
          rw [hk]
        · exact Or.inl (List.mem_cons_of_mem _ h2)
      · rw [if_neg hlt] at h
        exact Or.inl h
    · rw [if_neg hk] at h
      rcases List.mem_cons.mp h with rfl | h2
      · exact Or.inl (List.mem_cons_self _ _)
      · rcases ih h2 with h3 | h3
        · exact Or.inl (List.mem_cons_of_mem _ h3)
        · exact Or.inr h3

theorem findAgg_aggInsert_self_none {agg : List (String × Notification)}
    {n : Notification} (h : findAgg agg n.sender_id = none) :
    findAgg (aggInsert agg n) n.sender_id = some n := by
  induction agg with
  | nil =>
    rw [aggInsert_nil, findAgg_cons, if_pos rfl]
  | cons hd rest ih =>
    obtain ⟨k, m⟩ := hd
    rw [findAgg_cons] at h
    by_cases hk : k = n.sender_id
    · rw [if_pos hk] at h
      exact absurd h (by simp)
    · rw [if_neg hk] at h
      rw [aggInsert_cons, if_neg hk, findAgg_cons, if_neg hk]
      exact ih h

theorem findAgg_aggInsert_self_some {agg : List (String × Notification)}
    {n v : Notification} (h : findAgg agg n.sender_id = some v) :
    findAgg (aggInsert agg n) n.sender_id =
      some (if v.created_at < n.created_at then n else v) := by
  induction agg with
  | nil => exact absurd h (by simp [findAgg])
  | cons hd rest ih =>
    obtain ⟨k, m⟩ := hd
    rw [findAgg_cons] at h
    by_cases hk : k = n.sender_id
    · rw [if_pos hk] at h
      obtain rfl : m = v := by simpa using h
      rw [aggInsert_cons, if_pos hk]
      by_cases hlt : m.created_at < n.created_at
      · rw [if_pos hlt, findAgg_cons, if_pos hk, if_pos hlt]
      · rw [if_neg hlt, findAgg_cons, if_pos hk, if_neg hlt]
    · rw [if_neg hk] at h
      rw [aggInsert_cons, if_neg hk, findAgg_cons, if_neg hk]
      exact ih h

theorem findAgg_aggInsert_other {agg : List (String × Notification)}
    {n : Notification} {k : String} (h : k ≠ n.sender_id) :
    findAgg (aggInsert agg n) k = findAgg agg k := by
  induction agg with
  | nil =>
    rw [aggInsert_nil, findAgg_cons, if_neg (fun e => h e.symm)]
  | cons hd rest ih =>
    obtain ⟨k2, m⟩ := hd
    rw [aggInsert_cons]
    by_cases hk2 : k2 = n.sender_id
    · rw [if_pos hk2]
      have hne : ¬k2 = k := fun e => h (e ▸ hk2)
      by_cases hlt : m.created_at < n.created_at
      · rw [if_pos hlt, findAgg_cons, if_neg hne, findAgg_cons, if_neg hne]
      · rw [if_neg hlt]
    · rw [if_neg hk2, findAgg_cons, findAgg_cons, ih]

theorem map_fst_aggInsert (agg : List (String × Notification))
    (n : Notification) :
    (aggInsert agg n).map Prod.fst =
      if n.sender_id ∈ agg.map Prod.fst then agg.map Prod.fst
      else agg.map Prod.fst ++ [n.sender_id] := by
  induction agg with
  | nil => simp [aggInsert_nil]
  | cons hd rest ih =>
    obtain ⟨k, m⟩ := hd
    rw [aggInsert_cons]
    by_cases hk : k = n.sender_id
    · rw [if_pos hk]
      have hmem : n.sender_id ∈ ((k, m) :: rest).map Prod.fst := by
        simp [hk.symm]
      rw [if_pos hmem]
      by_cases hlt : m.created_at < n.created_at
      · rw [if_pos hlt]
        simp
      · rw [if_neg hlt]
    · rw [if_neg hk]
      by_cases hmem : n.sender_id ∈ rest.map Prod.fst
      · have hmem2 : n.sender_id ∈ ((k, m) :: rest).map Prod.fst := by
          simp [hmem]
        rw [if_pos hmem2]
        simp only [List.map_cons, ih, if_pos hmem]
      · have hmem2 : ¬n.sender_id ∈ ((k, m) :: rest).map Prod.fst := by
          simp only [List.map_cons, List.mem_cons]
          rintro (h2 | h2)
          · exact hk (h2.symm)
          · exact hmem h2
        rw [if_neg hmem2]
        simp only [List.map_cons, ih, if_neg hmem]
        rfl

theorem aggInsert_of_not_mem {agg : List (String × Notification)}
    {n : Notification} (h : n.sender_id ∉ agg.map Prod.fst) :
    aggInsert agg n = agg ++ [(n.sender_id, n)] := by
  induction agg with
  | nil => rfl
  | cons hd rest ih =>
    obtain ⟨k, m⟩ := hd
    have hk : ¬k = n.sender_id := by
      intro e
      exact h (by simp [e])
    rw [aggInsert_cons, if_neg hk, List.cons_append]
    exact congrArg _ (ih fun e => h (by simp [e]))

theorem foldl_agg_prop (ns : List Notification)
    (agg : List (String × Notification))
    (h : ∀ kv ∈ agg, kv.2.sender_id = kv.1 ∧ isMsgNotif kv.2 = true) :
    ∀ kv ∈ List.foldl aggStep agg ns,
      kv.2.sender_id = kv.1 ∧ isMsgNotif kv.2 = true := by
  induction ns generalizing agg with
  | nil => simpa using h
  | cons n t ih =>
    intro kv hkv
    refine ih (aggStep agg n) ?_ kv hkv
    intro kv2 hkv2
    rw [aggStep_eq] at hkv2
    by_cases hmsg : isMsgNotif n
    · rw [if_pos hmsg] at hkv2
      rcases mem_aggInsert hkv2 with h2 | h2
      · exact h kv2 h2
      · rw [h2]
        exact ⟨rfl, hmsg⟩
    · rw [if_neg hmsg] at hkv2
      exact h kv2 hkv2

theorem foldl_agg_nodup (ns : List Notification)
    (agg : List (String × Notification))
    (h : (agg.map Prod.fst).Nodup) :
    ((List.foldl aggStep agg ns).map Prod.fst).Nodup := by
  induction ns generalizing agg with
  | nil => simpa using h
  | cons n t ih =>
    refine ih (aggStep agg n) ?_
    rw [aggStep_eq]
    by_cases hmsg : isMsgNotif n
    · rw [if_pos hmsg, map_fst_aggInsert]
      by_cases hmem : n.sender_id ∈ agg.map Prod.fst
      · rw [if_pos hmem]
        exact h
      · rw [if_neg hmem]
        refine List.Nodup.append h (List.nodup_singleton _) ?_
        intro a ha hb
        rw [List.mem_singleton] at hb
        exact hmem (hb ▸ ha)
    · rw [if_neg hmsg]
      exact h

theorem mem_foldl_agg (ns : List Notification)
    (agg : List (String × Notification)) (kv : String × Notification)
    (h : kv ∈ List.foldl aggStep agg ns) : kv ∈ agg ∨ kv.2 ∈ ns := by
  induction ns generalizing agg with
  | nil => exact Or.inl (by simpa using h)
  | cons n t ih =>
    rcases ih (aggStep agg n) h with h2 | h2
    · rw [aggStep_eq] at h2
      by_cases hmsg : isMsgNotif n
      · rw [if_pos hmsg] at h2
        rcases mem_aggInsert h2 with h3 | h3
        · exact Or.inl h3
        · refine Or.inr ?_
          rw [h3]
          exact List.mem_cons_self _ _
      · rw [if_neg hmsg] at h2
        exact Or.inl h2
    · exact Or.inr (List.mem_cons_of_mem _ h2)

theorem findAgg_foldl_mono (ns : List Notification)
    (agg : List (String × Notification)) (k : String) (v : Notification)
    (h : findAgg agg k = some v) :
    ∃ w, findAgg (List.foldl aggStep agg ns) k = some w ∧
      v.created_at ≤ w.created_at := by
  induction ns generalizing agg v with
  | nil => exact ⟨v, h, le_refl _⟩
  | cons n t ih =>
    show ∃ w, findAgg (List.foldl aggStep (aggStep agg n) t) k = some w ∧ _
    rw [aggStep_eq]
    by_cases hmsg : isMsgNotif n
    · rw [if_pos hmsg]
      by_cases hk : k = n.sender_id
      · subst hk
        obtain ⟨w, hw, hle⟩ := ih (aggInsert agg n)
          (if v.created_at < n.created_at then n else v)
          (findAgg_aggInsert_self_some h)
        refine ⟨w, hw, le_trans ?_ hle⟩
        by_cases hlt : v.created_at < n.created_at
        · rw [if_pos hlt]
          exact le_of_lt hlt
        · rw [if_neg hlt]
      · refine ih (aggInsert agg n) v ?_
        rw [findAgg_aggInsert_other fun e => hk e]
        exact h
    · rw [if_neg hmsg]
      exact ih agg v h

theorem findAgg_foldl_max (ns : List Notification)
    (agg : List (String × Notification)) (m : Notification)
    (hm : m ∈ ns) (hmsg : isMsgNotif m = true) :
    ∃ w, findAgg (List.foldl aggStep agg ns) m.sender_id = some w ∧
      m.created_at ≤ w.created_at := by
  induction ns generalizing agg with
  | nil => exact absurd hm (List.not_mem_nil m)
  | cons n t ih =>
    rcases List.mem_cons.mp hm with rfl | hm2
    · show ∃ w, findAgg (List.foldl aggStep (aggStep agg m) t) _ = _ ∧ _
      have hstep : ∃ u, findAgg (aggStep agg m) m.sender_id = some u ∧
          m.created_at ≤ u.created_at := by
        rw [aggStep_eq, if_pos hmsg]
        cases hfind : findAgg agg m.sender_id with
        | none => exact ⟨m, findAgg_aggInsert_self_none hfind, le_refl _⟩
        | some v =>
          refine ⟨if v.created_at < m.created_at then m else v,
            findAgg_aggInsert_self_some hfind, ?_⟩
          by_cases hlt : v.created_at < m.created_at
          · rw [if_pos hlt]
          · rw [if_neg hlt]
            exact le_of_not_lt hlt
      obtain ⟨u, hu, hle⟩ := hstep
      obtain ⟨w, hw, hle2⟩ := findAgg_foldl_mono t (aggStep agg m) _ u hu
      exact ⟨w, hw, le_trans hle hle2⟩
    · exact ih (aggStep agg n) hm2

theorem findAgg_foldl_none (ns : List Notification)
    (agg : List (String × Notification)) (k : String)
    (h0 : findAgg agg k = none)
    (h : ∀ m ∈ ns, isMsgNotif m = true → m.sender_id ≠ k) :
    findAgg (List.foldl aggStep agg ns) k = none := by
  induction ns generalizing agg with
  | nil => simpa using h0
  | cons n t ih =>
    show findAgg (List.foldl aggStep (aggStep agg n) t) k = none
    refine ih (aggStep agg n) ?_ (fun m hm => h m (List.mem_cons_of_mem _ hm))
    rw [aggStep_eq]
    by_cases hmsg : isMsgNotif n
    · rw [if_pos hmsg]
      rw [findAgg_aggInsert_other
        (fun e => h n (List.mem_cons_self _ _) hmsg e.symm)]
      exact h0
    · rw [if_neg hmsg]
      exact h0

theorem findAgg_mem {agg : List (String × Notification)} {k : String}
    {v : Notification} (h : findAgg agg k = some v) : (k, v) ∈ agg := by
  induction agg with
  | nil => exact absurd h (by simp [findAgg])
  | cons hd rest ih =>
    obtain ⟨k2, m⟩ := hd
    rw [findAgg_cons] at h
    by_cases hk : k2 = k
    · rw [if_pos hk] at h
      obtain rfl : m = v := by simpa using h
      rw [← hk]
      exact List.mem_cons_self _ _
    · rw [if_neg hk] at h
      exact List.mem_cons_of_mem _ (ih h)

theorem countP_snd_sender (agg : List (String × Notification)) (s : String)
    (hnd : (agg.map Prod.fst).Nodup)
    (hkv : ∀ kv ∈ agg, kv.2.sender_id = kv.1) :
    (agg.map Prod.snd).countP (fun v => v.sender_id == s) =
      if (findAgg agg s).isSome then 1 else 0 := by
  induction agg with
  | nil => rfl
  | cons hd rest ih =>
    obtain ⟨k, m⟩ := hd
    have hms : m.sender_id = k := hkv (k, m) (List.mem_cons_self _ _)
    have hnd2 : (rest.map Prod.fst).Nodup := (List.nodup_cons.mp hnd).2
    have hknotin : k ∉ rest.map Prod.fst := (List.nodup_cons.mp hnd).1
    rw [List.map_cons, List.countP_cons, findAgg_cons]
    by_cases hk : k = s
    · have hpm : (m.sender_id == s) = true := by
        rw [hms, hk]
        exact beq_self_eq_true s
      have hzero : (rest.map Prod.snd).countP
          (fun v => v.sender_id == s) = 0 := by
        rw [List.countP_eq_zero]
        intro v hv
        obtain ⟨kv, hkv2, rfl⟩ := List.mem_map.mp hv
        have := hkv kv (List.mem_cons_of_mem _ hkv2)
        rw [this]
        intro hbeq
        rw [beq_iff_eq] at hbeq
        apply hknotin
        rw [hk, ← hbeq]
        exact List.mem_map_of_mem Prod.fst hkv2
      rw [hzero, hpm, if_pos hk]
      simp
    · have hpm : (m.sender_id == s) = false := by
        rw [hms]
        exact beq_eq_false_iff_ne.mpr hk
      rw [hpm, if_neg hk, ih hnd2
        (fun kv hkv2 => hkv kv (List.mem_cons_of_mem _ hkv2))]
      simp

theorem foldl_agg_values (ns : List Notification)
    (agg : List (String × Notification))
    (hdisj : ∀ m ∈ ns, isMsgNotif m = true →
      m.sender_id ∉ agg.map Prod.fst)
    (hnd : ((ns.filter isMsgNotif).map (fun n => n.sender_id)).Nodup) :
    (List.foldl aggStep agg ns).map Prod.snd =
      agg.map Prod.snd ++ ns.filter isMsgNotif := by
  induction ns generalizing agg with
  | nil => simp
  | cons n t ih =>
    cases hmsg : isMsgNotif n with
    | false =>
      have hstep : aggStep agg n = agg := by
        rw [aggStep_eq, if_neg (by simp [hmsg])]
      show (List.foldl aggStep (aggStep agg n) t).map Prod.snd = _
      rw [hstep, List.filter_cons_of_neg (by simp [hmsg])]
      exact ih agg (fun m hm => hdisj m (List.mem_cons_of_mem _ hm))
        (by rwa [List.filter_cons_of_neg (by simp [hmsg])] at hnd)
    | true =>
      have hstep : aggStep agg n = agg ++ [(n.sender_id, n)] := by
        rw [aggStep_eq, if_pos hmsg]
        exact aggInsert_of_not_mem (hdisj n (List.mem_cons_self _ _) hmsg)
      have hfil : (n :: t).filter isMsgNotif = n :: t.filter isMsgNotif :=
        List.filter_cons_of_pos hmsg
      rw [hfil] at hnd
      rw [List.map_cons, List.nodup_cons] at hnd
      obtain ⟨hsen, hnd2⟩ := hnd
      show (List.foldl aggStep (aggStep agg n) t).map Prod.snd = _
      rw [hstep, hfil]
      have := ih (agg ++ [(n.sender_id, n)]) ?_ hnd2
      · rw [this]
        simp
      · intro m hm hmmsg
        rw [List.map_append]
        intro hmem
        rcases List.mem_append.mp hmem with h2 | h2
        · exact hdisj m (List.mem_cons_of_mem _ hm) hmmsg h2
        · have : m.sender_id = n.sender_id := by simpa using h2
          refine hsen ?_
          rw [← this]
          exact List.mem_map_of_mem _ (List.mem_filter.mpr ⟨hm, hmmsg⟩)

/-! ## Consolidation: assembly lemmas -/

theorem othersOf_isMsg {ns : List Notification} {a : Notification}
    (h : a ∈ othersOf ns) : isMsgNotif a = false := by
  have := List.of_mem_filter h
  simpa using this

theorem aggVals_isMsg {ns : List Notification} {b : Notification}
    (h : b ∈ (aggregate ns).map Prod.snd) : isMsgNotif b = true := by
  obtain ⟨kv, hkv, rfl⟩ := List.mem_map.mp h
  exact (foldl_agg_prop ns [] (by simp) kv hkv).2

theorem aggVals_sender {ns : List Notification} :
    ((aggregate ns).map Prod.snd).map (fun v => v.sender_id) =
      (aggregate ns).map Prod.fst := by
  rw [List.map_map]
  exact List.map_congr_left fun kv hkv =>
    (foldl_agg_prop ns [] (by simp) kv hkv).1

theorem consolidate_eq (ns : List Notification) :
    consolidateNotifications ns =
      sortD (othersOf ns ++ (aggregate ns).map Prod.snd) := rfl

theorem consolidate_filter_not (ns : List Notification) :
    (consolidateNotifications ns).filter (fun n => !isMsgNotif n) =
      sortD (othersOf ns) := by
  rw [consolidate_eq, filter_sortD, List.filter_append]
  have h1 : (othersOf ns).filter (fun n => !isMsgNotif n) = othersOf ns :=
    List.filter_eq_self.mpr fun a ha => by simp [othersOf_isMsg ha]
  have h2 : ((aggregate ns).map Prod.snd).filter
      (fun n => !isMsgNotif n) = [] :=
    List.filter_eq_nil_iff.mpr fun a ha => by simp [aggVals_isMsg ha]
  rw [h1, h2, List.append_nil]

theorem consolidate_filter_msg (ns : List Notification) :
    (consolidateNotifications ns).filter isMsgNotif =
      sortD ((aggregate ns).map Prod.snd) := by
  rw [consolidate_eq, filter_sortD, List.filter_append]
  have h1 : (othersOf ns).filter isMsgNotif = [] :=
    List.filter_eq_nil_iff.mpr fun a ha => by simp [othersOf_isMsg ha]
  have h2 : ((aggregate ns).map Prod.snd).filter isMsgNotif =
      (aggregate ns).map Prod.snd :=
    List.filter_eq_self.mpr fun a ha => aggVals_isMsg ha
  rw [h1, h2, List.nil_append]

theorem consolidate_msg_senders_nodup (ns : List Notification) :
    (((consolidateNotifications ns).filter isMsgNotif).map
      (fun v => v.sender_id)).Nodup := by
  rw [consolidate_filter_msg]
  have hperm : List.Perm
      ((sortD ((aggregate ns).map Prod.snd)).map fun v => v.sender_id)
      (((aggregate ns).map Prod.snd).map fun v => v.sender_id) :=
    (sortD_perm _).map _
  refine hperm.symm.nodup ?_
  rw [aggVals_sender]
  exact foldl_agg_nodup ns [] List.nodup_nil

theorem consolidate_subset {ns : List Notification} {n : Notification}
    (h : n ∈ consolidateNotifications ns) : n ∈ ns := by
  rw [consolidate_eq, (sortD_perm _).mem_iff, List.mem_append] at h
  rcases h with h | h
  · exact List.mem_of_mem_filter h
  · obtain ⟨kv, hkv, rfl⟩ := List.mem_map.mp h
    rcases mem_foldl_agg ns [] kv hkv with h2 | h2
    · exact absurd h2 (List.not_mem_nil kv)
    · exact h2

theorem consolidate_idem (ns : List Notification) :
    consolidateNotifications (consolidateNotifications ns) =
      consolidateNotifications ns := by
  have h1 : othersOf (consolidateNotifications ns) = sortD (othersOf ns) :=
    consolidate_filter_not ns
  have h2 : (aggregate (consolidateNotifications ns)).map Prod.snd =
      (consolidateNotifications ns).filter isMsgNotif := by
    have := foldl_agg_values (consolidateNotifications ns) [] (by simp)
      (consolidate_msg_senders_nodup ns)
    simpa using this
  rw [consolidate_eq (consolidateNotifications ns), h1, h2,
    consolidate_filter_msg, sortD_sortD_append, sortD_append_sortD,
    ← consolidate_eq]

theorem consolidate_count_not_msg (ns : List Notification)
    (n : Notification) (h : isMsgNotif n = false) :
    (consolidateNotifications ns).count n = ns.count n := by
  rw [consolidate_eq, (sortD_perm _).count_eq, List.count_append]
  have hB : ((aggregate ns).map Prod.snd).count n = 0 :=
    List.count_eq_zero.mpr fun hmem => by
      rw [aggVals_isMsg hmem] at h
      cases h
  have hA : (othersOf ns).count n = ns.count n :=
    List.count_filter (by simp [h])
  rw [hA, hB]
  omega

theorem consolidate_count_le (ns : List Notification) (n : Notification) :
    (consolidateNotifications ns).count n ≤ ns.count n := by
  cases hmsg : isMsgNotif n with
  | false => rw [consolidate_count_not_msg ns n hmsg]
  | true =>
    rw [consolidate_eq, (sortD_perm _).count_eq, List.count_append]
    have hA : (othersOf ns).count n = 0 :=
      List.count_eq_zero.mpr fun hmem => by
        rw [othersOf_isMsg hmem] at hmsg
        cases hmsg
    have hB : ((aggregate ns).map Prod.snd).count n ≤ 1 := by
      have hle : ((aggregate ns).map Prod.snd).count n ≤
          ((aggregate ns).map Prod.snd).countP
            (fun v => v.sender_id == n.sender_id) := by
        rw [List.count_eq_countP]
        exact List.countP_mono_left fun a _ hab => by
          rw [eq_of_beq hab]
          exact beq_self_eq_true _
      have := countP_snd_sender (aggregate ns) n.sender_id
        (foldl_agg_nodup ns [] List.nodup_nil)
        (fun kv hkv => (foldl_agg_prop ns [] (by simp) kv hkv).1)
      rw [this] at hle
      exact le_trans hle (by split <;> omega)
    rw [hA]
    by_cases hmem : n ∈ (aggregate ns).map Prod.snd
    · have hns : n ∈ ns := by
        obtain ⟨kv, hkv, rfl⟩ := List.mem_map.mp hmem
        rcases mem_foldl_agg ns [] kv hkv with h2 | h2
        · exact absurd h2 (List.not_mem_nil kv)
        · exact h2
      have : 1 ≤ ns.count n := List.count_pos_iff.mpr hns
      omega
    · rw [List.count_eq_zero.mpr hmem]
      omega

theorem consolidate_countP_sender (ns : List Notification) (s : String) :
    (consolidateNotifications ns).countP
        (fun v => isMsgNotif v && v.sender_id == s) =
      if (findAgg (aggregate ns) s).isSome then 1 else 0 := by
  rw [consolidate_eq, (sortD_perm _).countP_eq, List.countP_append]
  have hA : (othersOf ns).countP
      (fun v => isMsgNotif v && v.sender_id == s) = 0 :=
    List.countP_eq_zero.mpr fun a ha => by simp [othersOf_isMsg ha]
  have hB : ((aggregate ns).map Prod.snd).countP
      (fun v => isMsgNotif v && v.sender_id == s) =
      ((aggregate ns).map Prod.snd).countP (fun v => v.sender_id == s) :=
    List.countP_congr fun v hv => by simp [aggVals_isMsg hv]
  rw [hA, hB, countP_snd_sender (aggregate ns) s
    (foldl_agg_nodup ns [] List.nodup_nil)
    (fun kv hkv => (foldl_agg_prop ns [] (by simp) kv hkv).1)]
  omega

/-! ## C6 — notification consolidation -/

/-- C6 (counterexample). Two "new message received" notifications from the
same sender that both carry an `assignment_id` — according to the claim they
are "other" notifications and must pass through unchanged — are nevertheless
collapsed: only the newer one survives.  The code never inspects
`assignment_id` when consolidating. -/
theorem consolidateNotifications_assignment_cex :
    sampleMsgNotif1.assignment_id = some 5
    ∧ sampleMsgNotif2.assignment_id = some 5
    ∧ sampleMsgNotif1 ∉
        consolidateNotifications [sampleMsgNotif1, sampleMsgNotif2]
    ∧ consolidateNotifications [sampleMsgNotif1, sampleMsgNotif2] =
        [sampleMsgNotif2] := by
  refine ⟨rfl, rfl, by decide, by decide⟩

/-- C6 (amended). For every list of notifications the consolidation
function: (1) returns a list sorted by `created_at` newest first; (2) passes
every notification whose lowercased message does not contain
"new message received" through unchanged, with its exact multiplicity —
regardless of its `assignment_id`; (3) invents nothing: every output element
is an input element; (4) for each sender with at least one matching
notification keeps exactly one matching entry of that sender — a matching
input notification carrying the most recent `created_at` among that sender's
matching notifications (and hence that notification's message text).
The `assignment_id` plays no role in the collapse. -/
theorem consolidateNotifications_spec (ns : List Notification) :
    SortedD (consolidateNotifications ns)
    ∧ (∀ n : Notification, isMsgNotif n = false →
        (consolidateNotifications ns).count n = ns.count n)
    ∧ (∀ n ∈ consolidateNotifications ns, n ∈ ns)
    ∧ (∀ m ∈ ns, isMsgNotif m = true →
        ∃ w ∈ consolidateNotifications ns,
          isMsgNotif w = true
          ∧ w.sender_id = m.sender_id
          ∧ w ∈ ns
          ∧ (∀ m2 ∈ ns, isMsgNotif m2 = true →
              m2.sender_id = m.sender_id → m2.created_at ≤ w.created_at)
          ∧ (consolidateNotifications ns).countP
              (fun v => isMsgNotif v && v.sender_id == m.sender_id) = 1) := by
  refine ⟨sortD_sorted _, consolidate_count_not_msg ns,
    fun _ hn => consolidate_subset hn, ?_⟩
  intro m hm hmsg
  obtain ⟨w, hfind, hle⟩ := findAgg_foldl_max ns [] m hm hmsg
  have hkv : (m.sender_id, w) ∈ aggregate ns := findAgg_mem hfind
  have hprops := foldl_agg_prop ns [] (by simp) (m.sender_id, w) hkv
  have hwB : w ∈ (aggregate ns).map Prod.snd :=
    List.mem_map_of_mem Prod.snd hkv
  have hwmem : w ∈ consolidateNotifications ns := by
    rw [consolidate_eq, (sortD_perm _).mem_iff, List.mem_append]
    exact Or.inr hwB
  have hwns : w ∈ ns := by
    rcases mem_foldl_agg ns [] (m.sender_id, w) hkv with h2 | h2
    · exact absurd h2 (List.not_mem_nil _)
    · exact h2
  refine ⟨w, hwmem, hprops.2, hprops.1, hwns, ?_, ?_⟩
  · intro m2 hm2 hmsg2 hs2
    obtain ⟨w2, hfind2, hle2⟩ := findAgg_foldl_max ns [] m2 hm2 hmsg2
    rw [hs2] at hfind2
    rw [hfind] at hfind2
    obtain rfl : w = w2 := by simpa using hfind2
    exact hle2
  · rw [consolidate_countP_sender ns m.sender_id, if_pos (by
      show (findAgg (List.foldl aggStep [] ns) m.sender_id).isSome = true
      rw [hfind]
      rfl)]

/-! ## C10 — consolidation is idempotent and non-fabricating -/

/-- C10 (confirmed). Applying the consolidation twice yields exactly the
result of applying it once, every output notification is one of the input
notifications, and no record is duplicated: each notification's multiplicity
in the output is at most its multiplicity in the input. -/
theorem consolidateNotifications_idem_spec (ns : List Notification) :
    consolidateNotifications (consolidateNotifications ns) =
      consolidateNotifications ns
    ∧ (∀ n ∈ consolidateNotifications ns, n ∈ ns)
    ∧ (∀ n : Notification,
        (consolidateNotifications ns).count n ≤ ns.count n) :=
  ⟨consolidate_idem ns, fun _ hn => consolidate_subset hn,
    consolidate_count_le ns⟩

end TasksApp
